/-
Verification of the voxel layout-generator core (BoundingBox, VoxelGrid,
LayoutGenerator) against its specification.

`BoundingBox::addPoint` is embedded directly from the header source.
The `LayoutGenerator` member functions (`generateFloor`, `generateFloorWalls`,
`extractPrimitives`, `levelExit`) are declared in the header but their
definitions are not among the provided sources; those operations are modelled
from the specification text, as marked in their doc comments.
-/
import Mathlib

/-- Per-cell classification (spec §3 VoxelState): a closed enumeration with at
minimum empty, floor, wall; the spec also mentions an exit marker. -/
inductive VoxelState where
  | empty
  | floor
  | wall
  | exitMark
deriving DecidableEq, Repr

/-- An ordered triple of signed integers identifying one grid cell
(spec §3 VoxelCoords; `x` = length, `y` = height, `z` = width). -/
structure VoxelCoords where
  x : Int
  y : Int
  z : Int
deriving DecidableEq, Repr

/-- Axis-aligned integer box from the header source: `struct BoundingBox
{ VoxelCoords min, max; ... }`. -/
structure BoundingBox where
  min : VoxelCoords
  max : VoxelCoords
deriving DecidableEq, Repr

/-- Embeds `BoundingBox::addPoint` exactly as written in the header:
`if (v.x() <= min.x() && v.y() <= min.y() && v.z() <= min.z()) min = v;
else if (v.x() >= max.x() && v.y() >= max.y() && v.z() >= max.z()) max = v;`.
C++ member mutation is rendered as returning the updated box. -/
def BoundingBox.addPoint (b : BoundingBox) (v : VoxelCoords) : BoundingBox :=
  if v.x ≤ b.min.x ∧ v.y ≤ b.min.y ∧ v.z ≤ b.min.z then
    { b with min := v }
  else if v.x ≥ b.max.x ∧ v.y ≥ b.max.y ∧ v.z ≥ b.max.z then
    { b with max := v }
  else
    b

/-- Componentwise minimum of two coordinate triples, written from the spec's
words in §4.2 (`min' = componentwise_min(min, v)`), for comparison with the
source's `addPoint`. -/
def componentwiseMin (a b : VoxelCoords) : VoxelCoords :=
  ⟨min a.x b.x, min a.y b.y, min a.z b.z⟩

/-- Componentwise maximum of two coordinate triples, written from the spec's
words in §4.2 (`max' = componentwise_max(max, v)`). -/
def componentwiseMax (a b : VoxelCoords) : VoxelCoords :=
  ⟨max a.x b.x, max a.y b.y, max a.z b.z⟩

/-- The box `addPoint` semantics the spec §4.2 demands: independent per-axis
min/max tracking. Used only to compare against the source behaviour. -/
def specAddPoint (b : BoundingBox) (v : VoxelCoords) : BoundingBox :=
  ⟨componentwiseMin b.min v, componentwiseMax b.max v⟩

/-- Feeding a sequence of points to a box by repeated `addPoint` calls. -/
def addPoints (b : BoundingBox) (vs : List VoxelCoords) : BoundingBox :=
  vs.foldl BoundingBox.addPoint b

/-- The box obtained from a non-empty sequence of points: seeded with the
first point (spec §3: "created empty (or seeded with a first point)"),
then grown by `addPoint` on the rest. -/
def boxOfPoints (v : VoxelCoords) (vs : List VoxelCoords) : BoundingBox :=
  addPoints ⟨v, v⟩ vs

/-- A box contains the integer cell `(x, y, z)` when the cell lies within the
inclusive bounds `[min, max]` on every axis (spec §3, §6). -/
def BoundingBox.containsCell (b : BoundingBox) (x y z : Int) : Prop :=
  b.min.x ≤ x ∧ x ≤ b.max.x ∧ b.min.y ≤ y ∧ y ≤ b.max.y ∧ b.min.z ≤ z ∧ z ≤ b.max.z

instance (b : BoundingBox) (x y z : Int) : Decidable (b.containsCell x y z) := by
  unfold BoundingBox.containsCell
  infer_instance

/-- Number of unit cells covered by an inclusive integer box
(spec §6: scale `(max - min + 1)` per axis, unit cell size). -/
def BoundingBox.cellCount (b : BoundingBox) : Int :=
  (b.max.x - b.min.x + 1) * (b.max.y - b.min.y + 1) * (b.max.z - b.min.z + 1)

/-- Claim C1 (status: code bug). Evaluating the source `addPoint` at the box
with `min = max = (0,0,0)` and the point `(-1,1,0)` — below min on the x axis
and above max on the y axis — leaves the box unchanged, so the result is not
the componentwise min/max update the spec's governing semantics requires. -/
theorem addPoint_not_componentwise :
    BoundingBox.addPoint ⟨⟨0, 0, 0⟩, ⟨0, 0, 0⟩⟩ ⟨-1, 1, 0⟩ = ⟨⟨0, 0, 0⟩, ⟨0, 0, 0⟩⟩ ∧
    BoundingBox.addPoint ⟨⟨0, 0, 0⟩, ⟨0, 0, 0⟩⟩ ⟨-1, 1, 0⟩ ≠
      specAddPoint ⟨⟨0, 0, 0⟩, ⟨0, 0, 0⟩⟩ ⟨-1, 1, 0⟩ := by
  decide

/-- Claim C3 (status: code bug). For the point sequences `(0,0,0), (-1,1,0)`
and its permutation `(-1,1,0), (0,0,0)`, the source `addPoint` produces two
different final boxes, and the first box's min is not the per-axis minimum of
the added points: order-independence and the per-axis min/max law both fail. -/
theorem addPoints_not_order_independent :
    boxOfPoints ⟨0, 0, 0⟩ [⟨-1, 1, 0⟩] ≠ boxOfPoints ⟨-1, 1, 0⟩ [⟨0, 0, 0⟩] ∧
    (boxOfPoints ⟨0, 0, 0⟩ [⟨-1, 1, 0⟩]).min ≠ componentwiseMin ⟨0, 0, 0⟩ ⟨-1, 1, 0⟩ := by
  decide

/-- Claim C4 (status: code bug). After adding the point `(-1,1,0)` to the box
with `min = max = (0,0,0)`, the resulting box does not contain the added
point: `min ≤ v ≤ max` fails. -/
theorem addPoint_not_containing :
    ¬ (BoundingBox.addPoint ⟨⟨0, 0, 0⟩, ⟨0, 0, 0⟩⟩ ⟨-1, 1, 0⟩).containsCell (-1) 1 0 := by
  decide

/-- Claim C10 (confirmed). A single `addPoint` call never changes both corners
— the updated box keeps its old `min` or its old `max` — and a point already
inside the box (`min ≤ v ≤ max` componentwise) leaves the box unchanged. -/
theorem addPoint_single_corner_frame (b : BoundingBox) (v : VoxelCoords) :
    ((b.addPoint v).min = b.min ∨ (b.addPoint v).max = b.max) ∧
    (b.min.x ≤ v.x → v.x ≤ b.max.x → b.min.y ≤ v.y → v.y ≤ b.max.y →
      b.min.z ≤ v.z → v.z ≤ b.max.z → b.addPoint v = b) := by
  obtain ⟨⟨ax, ay, az⟩, ⟨cx, cy, cz⟩⟩ := b
  obtain ⟨vx, vy, vz⟩ := v
  simp only [BoundingBox.addPoint]
  constructor
  · split
    · exact Or.inr rfl
    · split
      · exact Or.inl rfl
      · exact Or.inl rfl
  · intro h1 h2 h3 h4 h5 h6
    split
    next h =>
      simp only [BoundingBox.mk.injEq, VoxelCoords.mk.injEq, and_true]
      omega
    next =>
      split
      next h =>
        simp only [BoundingBox.mk.injEq, VoxelCoords.mk.injEq, true_and]
        omega
      next =>
        rfl

/-- Witness for C10: the interior point `(1,1,1)` of the box
`[(0,0,0), (2,2,2)]` leaves it unchanged. -/
theorem addPoint_single_corner_frame_witness :
    BoundingBox.addPoint ⟨⟨0, 0, 0⟩, ⟨2, 2, 2⟩⟩ ⟨1, 1, 1⟩ = ⟨⟨0, 0, 0⟩, ⟨2, 2, 2⟩⟩ :=
  (addPoint_single_corner_frame ⟨⟨0, 0, 0⟩, ⟨2, 2, 2⟩⟩ ⟨1, 1, 1⟩).2
    (by decide) (by decide) (by decide) (by decide) (by decide) (by decide)

/-- Dense fixed-extent 3D container (spec §3 VoxelGrid): extent
`length × height × width`, every in-extent coordinate has a defined value.
Cells are indexed from `(0,0,0)`; the cell map is total, and all operations
only consult coordinates inside the extent. -/
structure VoxelGrid where
  length : Nat
  height : Nat
  width : Nat
  cell : Nat → Nat → Nat → VoxelState

/-- The row of cells at fixed `x` (length) and `y` (height), listed along the
`z` (width) axis in increasing order: the grid's stable x-major, then y, then
z iteration order of spec §4.1. -/
def VoxelGrid.row (g : VoxelGrid) (x y : Nat) : List VoxelState :=
  (List.range g.width).map fun z => g.cell x y z

/-- Number of non-empty (occupied) in-extent cells of the grid, counted row
by row in the grid's iteration order. -/
def VoxelGrid.nonEmptyCount (g : VoxelGrid) : Nat :=
  ((List.range g.length).map fun x =>
    ((List.range g.height).map fun y =>
      ((g.row x y).filter fun s => s ≠ VoxelState.empty).length).sum).sum

/-- Every in-extent cell of the grid is empty-classified. -/
def VoxelGrid.allEmpty (g : VoxelGrid) : Prop :=
  ∀ x y z, x < g.length → y < g.height → z < g.width →
    g.cell x y z = VoxelState.empty

/-- Length of the initial run of cells equal to `st` at the head of a row. -/
def runLen (st : VoxelState) : List VoxelState → Nat
  | [] => 0
  | c :: rest => if c = st then runLen st rest + 1 else 0

/-- A maximal run of same-classification non-empty cells inside one row:
start index `lo`, length `len` (≥ 1 in every produced run), state `st`. -/
structure Run where
  lo : Nat
  len : Nat
  st : VoxelState
deriving DecidableEq, Repr

/-- Greedy run decomposition of one row, starting at absolute index `i`
(spec §9's extraction strategy: scan cells in a fixed order, greedily extend
a candidate box along one axis while all covered cells remain the same
non-empty classification, then continue past the covered cells). -/
def rowRuns : Nat → List VoxelState → List Run
  | _, [] => []
  | i, c :: rest =>
    if c = VoxelState.empty then
      rowRuns (i + 1) rest
    else
      ⟨i, runLen c rest + 1, c⟩ :: rowRuns (i + runLen c rest + 1) (rest.drop (runLen c rest))
termination_by _ l => l.length
decreasing_by
  · simp
  · simp only [List.length_drop, List.length_cons]
    omega

/-- The box covering run `r` of the row at `(x, y)`: one cell thick on the
x and y axes, spanning `[r.lo, r.lo + r.len - 1]` along z. -/
def Run.toBox (x y : Nat) (r : Run) : BoundingBox :=
  ⟨⟨(x : Int), (y : Int), (r.lo : Int)⟩, ⟨(x : Int), (y : Int), (r.lo : Int) + r.len - 1⟩⟩

/-- Modelled from the spec: the definition of `LayoutGenerator::extractPrimitives`
is not among the provided sources (the header only declares it). Following
spec §4.3 and §9, the model scans all cells in the stable x-major, y, z order
and greedily merges adjacent same-classification non-empty cells into runs
along the z axis, emitting one inclusive integer box per run. -/
def LayoutGenerator.extractPrimitives (g : VoxelGrid) : List BoundingBox :=
  (List.range g.length).flatMap fun x =>
    (List.range g.height).flatMap fun y =>
      (rowRuns 0 (g.row x y)).map (Run.toBox x y)

theorem runLen_le (st : VoxelState) (l : List VoxelState) : runLen st l ≤ l.length := by
  induction l with
  | nil => simp [runLen]
  | cons c rest ih =>
    simp only [runLen, List.length_cons]
    split
    · omega
    · omega

theorem runLen_spec (st : VoxelState) (l : List VoxelState) :
    ∀ j, j < runLen st l → l[j]? = some st := by
  induction l with
  | nil => intro j hj; simp [runLen] at hj
  | cons c rest ih =>
    intro j hj
    simp only [runLen] at hj
    split at hj
    next hc =>
      cases j with
      | zero => rw [List.getElem?_cons_zero, hc]
      | succ j => rw [List.getElem?_cons_succ]; exact ih j (by omega)
    next => omega

theorem runLen_take (st : VoxelState) (l : List VoxelState) :
    l.take (runLen st l) = List.replicate (runLen st l) st := by
  induction l with
  | nil => simp [runLen]
  | cons c rest ih =>
    simp only [runLen]
    split
    next hc => simp [List.take_succ_cons, List.replicate_succ, hc, ih]
    next => simp

theorem rowRuns_mem_spec (i : Nat) (l : List VoxelState) :
    ∀ r ∈ rowRuns i l,
      i ≤ r.lo ∧ r.lo + r.len ≤ i + l.length ∧ 1 ≤ r.len ∧ r.st ≠ VoxelState.empty ∧
      ∀ k, r.lo ≤ k → k < r.lo + r.len → l[k - i]? = some r.st := by
  induction i, l using rowRuns.induct with
  | case1 i =>
    intro r hr
    simp [rowRuns] at hr
  | case2 i rest ih =>
    intro r hr
    rw [rowRuns, if_pos rfl] at hr
    obtain ⟨h1, h2, h3, h4, h5⟩ := ih r hr
    refine ⟨by omega, by simp only [List.length_cons]; omega, h3, h4, ?_⟩
    intro k hk1 hk2
    have hki : k - i = (k - (i + 1)) + 1 := by omega
    rw [hki, List.getElem?_cons_succ]
    exact h5 k hk1 hk2
  | case3 i c rest hc ih =>
    intro r hr
    rw [rowRuns, if_neg hc] at hr
    rcases List.mem_cons.mp hr with hr | hr
    · subst hr
      have hle := runLen_le c rest
      have hle2 : i + (runLen c rest + 1) ≤ i + (c :: rest).length := by
        simp only [List.length_cons]; omega
      refine ⟨le_refl i, hle2, Nat.succ_le_succ (Nat.zero_le _), hc, ?_⟩
      intro k hk1 hk2
      simp only at hk1 hk2 ⊢
      rcases Nat.lt_or_ge (k - i) 1 with hki | hki
      · have : k - i = 0 := by omega
        rw [this, List.getElem?_cons_zero]
      · have hki2 : k - i = (k - i - 1) + 1 := by omega
        rw [hki2, List.getElem?_cons_succ]
        exact runLen_spec c rest (k - i - 1) (by omega)
    · obtain ⟨h1, h2, h3, h4, h5⟩ := ih r hr
      have hle := runLen_le c rest
      have hdl : (rest.drop (runLen c rest)).length = rest.length - runLen c rest :=
        List.length_drop _ _
      refine ⟨by omega, by simp only [List.length_cons]; omega, h3, h4, ?_⟩
      intro k hk1 hk2
      have hki : k - i = (runLen c rest + (k - (i + runLen c rest + 1))) + 1 := by omega
      rw [hki, List.getElem?_cons_succ, ← List.getElem?_drop]
      exact h5 k hk1 hk2

theorem rowRuns_complete (i : Nat) (l : List VoxelState) :
    ∀ j s, l[j]? = some s → s ≠ VoxelState.empty →
      ∃ r ∈ rowRuns i l, r.lo ≤ i + j ∧ i + j < r.lo + r.len := by
  induction i, l using rowRuns.induct with
  | case1 i =>
    intro j s h hs
    simp at h
  | case2 i rest ih =>
    intro j s h hs
    cases j with
    | zero =>
      rw [List.getElem?_cons_zero] at h
      exact absurd (Option.some.inj h).symm hs
    | succ j =>
      rw [List.getElem?_cons_succ] at h
      obtain ⟨r, hr, h1, h2⟩ := ih j s h hs
      rw [rowRuns, if_pos rfl]
      exact ⟨r, hr, by omega, by omega⟩
  | case3 i c rest hc ih =>
    intro j s h hs
    rw [rowRuns, if_neg hc]
    rcases Nat.lt_or_ge j (runLen c rest + 1) with hj | hj
    · exact ⟨⟨i, runLen c rest + 1, c⟩, List.mem_cons_self _ _, by simp, by simp; omega⟩
    · have hj2 : j = (runLen c rest + (j - 1 - runLen c rest)) + 1 := by omega
      rw [hj2, List.getElem?_cons_succ, ← List.getElem?_drop] at h
      obtain ⟨r, hr, h1, h2⟩ := ih (j - 1 - runLen c rest) s h hs
      exact ⟨r, List.mem_cons_of_mem _ hr, by omega, by omega⟩

theorem rowRuns_sorted (i : Nat) (l : List VoxelState) :
    List.Pairwise (fun a b => a.lo + a.len ≤ b.lo) (rowRuns i l) := by
  induction i, l using rowRuns.induct with
  | case1 i => simp [rowRuns]
  | case2 i rest ih => rw [rowRuns, if_pos rfl]; exact ih
  | case3 i c rest hc ih =>
    rw [rowRuns, if_neg hc]
    refine List.Pairwise.cons ?_ ih
    intro r hr
    have h1 := (rowRuns_mem_spec _ _ r hr).1
    simp only
    omega

theorem rowRuns_len_sum (i : Nat) (l : List VoxelState) :
    ((rowRuns i l).map Run.len).sum = (l.filter fun s => s ≠ VoxelState.empty).length := by
  induction i, l using rowRuns.induct with
  | case1 i => simp [rowRuns]
  | case2 i rest ih =>
    rw [rowRuns, if_pos rfl, List.filter_cons]
    simpa using ih
  | case3 i c rest hc ih =>
    rw [rowRuns, if_neg hc]
    simp only [List.map_cons, List.sum_cons]
    rw [ih, List.filter_cons]
    have hpc : (decide (c ≠ VoxelState.empty)) = true := decide_eq_true hc
    have hcount : (rest.filter fun s => s ≠ VoxelState.empty).length =
        runLen c rest + ((rest.drop (runLen c rest)).filter fun s => s ≠ VoxelState.empty).length := by
      conv_lhs => rw [← List.take_append_drop (runLen c rest) rest]
      rw [List.filter_append, List.length_append, runLen_take c rest, List.filter_replicate,
        hpc, if_pos rfl, List.length_replicate]
    rw [hpc, if_pos rfl, List.length_cons, hcount]
    omega

theorem toBox_containsCell (x y : Nat) (r : Run) (a b c : Int) :
    (Run.toBox x y r).containsCell a b c ↔
      a = (x : Int) ∧ b = (y : Int) ∧ (r.lo : Int) ≤ c ∧ c < (r.lo : Int) + (r.len : Int) := by
  unfold Run.toBox BoundingBox.containsCell
  dsimp only
  omega

theorem toBox_cellCount (x y : Nat) (r : Run) :
    (Run.toBox x y r).cellCount = (r.len : Int) := by
  unfold Run.toBox BoundingBox.cellCount
  dsimp only
  ring

theorem row_length (g : VoxelGrid) (x y : Nat) : (g.row x y).length = g.width := by
  simp [VoxelGrid.row]

theorem row_getElem (g : VoxelGrid) (x y z : Nat) (h : z < g.width) :
    (g.row x y)[z]? = some (g.cell x y z) := by
  unfold VoxelGrid.row
  rw [List.getElem?_map, List.getElem?_range h]
  rfl

theorem mem_extractPrimitives (g : VoxelGrid) (b : BoundingBox) :
    b ∈ LayoutGenerator.extractPrimitives g ↔
      ∃ x < g.length, ∃ y < g.height, ∃ r ∈ rowRuns 0 (g.row x y), Run.toBox x y r = b := by
  unfold LayoutGenerator.extractPrimitives
  simp only [List.mem_flatMap, List.mem_map, List.mem_range]

theorem extract_cells_occupied (g : VoxelGrid) (b : BoundingBox)
    (hb : b ∈ LayoutGenerator.extractPrimitives g) (a c d : Int)
    (hcell : b.containsCell a c d) :
    ∃ xn yn zn : Nat, a = (xn : Int) ∧ c = (yn : Int) ∧ d = (zn : Int) ∧
      xn < g.length ∧ yn < g.height ∧ zn < g.width ∧
      g.cell xn yn zn ≠ VoxelState.empty := by
  obtain ⟨x, hx, y, hy, r, hr, hbr⟩ := (mem_extractPrimitives g b).mp hb
  subst hbr
  rw [toBox_containsCell] at hcell
  obtain ⟨ha, hcy, hd1, hd2⟩ := hcell
  obtain ⟨hm1, hm2, hm3, hm4, hm5⟩ := rowRuns_mem_spec 0 (g.row x y) r hr
  have hd0 : 0 ≤ d := by omega
  obtain ⟨k, rfl⟩ : ∃ k : Nat, d = (k : Int) := ⟨d.toNat, (Int.toNat_of_nonneg hd0).symm⟩
  have hk1 : r.lo ≤ k := by omega
  have hk2 : k < r.lo + r.len := by omega
  have hrow := hm5 k hk1 hk2
  rw [Nat.sub_zero] at hrow
  have hrl := row_length g x y
  have hkw : k < g.width := by omega
  rw [row_getElem g x y k hkw] at hrow
  have hcellst : g.cell x y k = r.st := Option.some.inj hrow
  exact ⟨x, y, k, ha, hcy, rfl, hx, hy, hkw, by rw [hcellst]; exact hm4⟩

/-- Two boxes are non-overlapping: no integer cell lies in both. -/
def boxesDisjoint (b1 b2 : BoundingBox) : Prop :=
  ∀ x y z : Int, ¬(b1.containsCell x y z ∧ b2.containsCell x y z)

theorem inner_pairwise (g : VoxelGrid) (x y : Nat) :
    List.Pairwise boxesDisjoint ((rowRuns 0 (g.row x y)).map (Run.toBox x y)) := by
  rw [List.pairwise_map]
  refine List.Pairwise.imp ?_ (rowRuns_sorted 0 (g.row x y))
  intro r1 r2 h12
  rintro a b c ⟨h1, h2⟩
  rw [toBox_containsCell] at h1 h2
  omega

theorem mem_rowBoxes_xy (x y : Nat) (row : List VoxelState) (b : BoundingBox)
    (hb : b ∈ (rowRuns 0 row).map (Run.toBox x y)) (a c d : Int)
    (hcell : b.containsCell a c d) : a = (x : Int) ∧ c = (y : Int) := by
  obtain ⟨r, hr, rfl⟩ := List.mem_map.mp hb
  rw [toBox_containsCell] at hcell
  exact ⟨hcell.1, hcell.2.1⟩

theorem innerx_pairwise (g : VoxelGrid) (x : Nat) :
    List.Pairwise boxesDisjoint
      ((List.range g.height).flatMap fun y => (rowRuns 0 (g.row x y)).map (Run.toBox x y)) := by
  rw [List.pairwise_flatMap]
  constructor
  · intro y _hy
    exact inner_pairwise g x y
  · refine List.Pairwise.imp ?_ (List.pairwise_lt_range g.height)
    intro y1 y2 hlt
    intro b1 hb1 b2 hb2
    rintro a c d ⟨h1, h2⟩
    have e1 := (mem_rowBoxes_xy x y1 _ b1 hb1 a c d h1).2
    have e2 := (mem_rowBoxes_xy x y2 _ b2 hb2 a c d h2).2
    omega

theorem extract_pairwise (g : VoxelGrid) :
    List.Pairwise boxesDisjoint (LayoutGenerator.extractPrimitives g) := by
  unfold LayoutGenerator.extractPrimitives
  rw [List.pairwise_flatMap]
  constructor
  · intro x _hx
    exact innerx_pairwise g x
  · refine List.Pairwise.imp ?_ (List.pairwise_lt_range g.length)
    intro x1 x2 hlt
    intro b1 hb1 b2 hb2
    rintro a c d ⟨h1, h2⟩
    obtain ⟨y1, _, hb1i⟩ := List.mem_flatMap.mp hb1
    obtain ⟨y2, _, hb2i⟩ := List.mem_flatMap.mp hb2
    have e1 := (mem_rowBoxes_xy x1 y1 _ b1 hb1i a c d h1).1
    have e2 := (mem_rowBoxes_xy x2 y2 _ b2 hb2i a c d h2).1
    omega

theorem extract_covers (g : VoxelGrid) (x y z : Nat)
    (hx : x < g.length) (hy : y < g.height) (hz : z < g.width)
    (hne : g.cell x y z ≠ VoxelState.empty) :
    ∃ b ∈ LayoutGenerator.extractPrimitives g, b.containsCell x y z := by
  have hrow := row_getElem g x y z hz
  obtain ⟨r, hr, h1, h2⟩ := rowRuns_complete 0 (g.row x y) z (g.cell x y z) hrow hne
  refine ⟨Run.toBox x y r, ?_, ?_⟩
  · exact (mem_extractPrimitives g _).mpr ⟨x, hx, y, hy, r, hr, rfl⟩
  · rw [toBox_containsCell]
    exact ⟨rfl, rfl, by omega, by omega⟩

theorem sum_map_len_int (rs : List Run) :
    (rs.map fun r => ((r.len : Nat) : Int)).sum = (((rs.map Run.len).sum : Nat) : Int) := by
  induction rs with
  | nil => simp
  | cons r rs ih => simp [ih]

theorem cast_sum_map {α : Type} (l : List α) (f : α → Nat) :
    ((((l.map f).sum : Nat)) : Int) = (l.map fun a => ((f a : Nat) : Int)).sum := by
  induction l with
  | nil => simp
  | cons a l ih => simp [ih]

theorem sum_map_flatMap {α β : Type} (l : List α) (f : α → List β) (h : β → Int) :
    ((l.flatMap f).map h).sum = (l.map fun a => ((f a).map h).sum).sum := by
  induction l with
  | nil => simp
  | cons a l ih => simp [List.flatMap_cons, ih]

theorem extract_cellCount (g : VoxelGrid) :
    ((LayoutGenerator.extractPrimitives g).map BoundingBox.cellCount).sum =
      (g.nonEmptyCount : Int) := by
  unfold LayoutGenerator.extractPrimitives VoxelGrid.nonEmptyCount
  simp only [sum_map_flatMap, List.map_map, Function.comp_def, toBox_cellCount,
    sum_map_len_int, rowRuns_len_sum, cast_sum_map]

/-- Claim C2 (confirmed against the spec-modelled `extractPrimitives`).
The emitted boxes are pairwise non-overlapping; an in-extent cell is
non-empty iff it lies in some emitted box (with disjointness, in exactly one);
every cell of every emitted box is an in-extent non-empty cell of the grid
(no box contains an empty-classified cell); and the boxes' total cell count
equals the grid's number of non-empty cells. -/
theorem extractPrimitives_tiling (g : VoxelGrid) :
    List.Pairwise boxesDisjoint (LayoutGenerator.extractPrimitives g) ∧
    (∀ x y z : Nat, x < g.length → y < g.height → z < g.width →
      (g.cell x y z ≠ VoxelState.empty ↔
        ∃ b ∈ LayoutGenerator.extractPrimitives g, b.containsCell x y z)) ∧
    (∀ b ∈ LayoutGenerator.extractPrimitives g, ∀ x y z : Int, b.containsCell x y z →
      ∃ xn yn zn : Nat, x = (xn : Int) ∧ y = (yn : Int) ∧ z = (zn : Int) ∧
        xn < g.length ∧ yn < g.height ∧ zn < g.width ∧
        g.cell xn yn zn ≠ VoxelState.empty) ∧
    ((LayoutGenerator.extractPrimitives g).map BoundingBox.cellCount).sum =
      (g.nonEmptyCount : Int) := by
  refine ⟨extract_pairwise g, ?_, extract_cells_occupied g, extract_cellCount g⟩
  intro x y z hx hy hz
  constructor
  · exact fun hne => extract_covers g x y z hx hy hz hne
  · rintro ⟨b, hb, hcell⟩
    obtain ⟨xn, yn, zn, ex, ey, ez, _, _, _, hne⟩ :=
      extract_cells_occupied g b hb x y z hcell
    have hxx : x = xn := Nat.cast_injective ex
    have hyy : y = yn := Nat.cast_injective ey
    have hzz : z = zn := Nat.cast_injective ez
    rw [hxx, hyy, hzz]
    exact hne

/-- Witness for C2: on the 2×1×2 grid whose only empty cell is `(0,0,0)`,
the non-empty cell `(1,0,1)` lies in one of the extracted boxes. -/
theorem extractPrimitives_tiling_witness :
    ∃ b ∈ LayoutGenerator.extractPrimitives
      ⟨2, 1, 2, fun x _ z => if x = 0 ∧ z = 0 then VoxelState.empty else VoxelState.floor⟩,
      b.containsCell 1 0 1 :=
  ((extractPrimitives_tiling
      ⟨2, 1, 2, fun x _ z => if x = 0 ∧ z = 0 then VoxelState.empty else VoxelState.floor⟩).2.1
    1 0 1 (by decide) (by decide) (by decide)).mp (by decide)

theorem rowRuns_nil (i : Nat) (l : List VoxelState) :
    (∀ s ∈ l, s = VoxelState.empty) → rowRuns i l = [] := by
  induction i, l using rowRuns.induct with
  | case1 i =>
    intro _h
    rw [rowRuns]
  | case2 i rest ih =>
    intro h
    rw [rowRuns, if_pos rfl]
    exact ih fun s hs => h s (List.mem_cons_of_mem _ hs)
  | case3 i c rest hc ih =>
    intro h
    exact absurd (h c (List.mem_cons_self _ _)) hc

/-- Claim C5 (confirmed against the spec-modelled `extractPrimitives`).
On a grid whose in-extent cells are all empty-classified, extraction returns
the empty sequence — the model is a total function, so no error is signalled,
and in particular no (degenerate) box is emitted at all. -/
theorem extractPrimitives_allEmpty (g : VoxelGrid) (h : g.allEmpty) :
    LayoutGenerator.extractPrimitives g = [] := by
  unfold LayoutGenerator.extractPrimitives
  rw [List.flatMap_eq_nil_iff]
  intro x hx
  rw [List.flatMap_eq_nil_iff]
  intro y hy
  rw [List.map_eq_nil_iff]
  apply rowRuns_nil
  intro s hs
  unfold VoxelGrid.row at hs
  obtain ⟨z, hz, rfl⟩ := List.mem_map.mp hs
  exact h x y z (List.mem_range.mp hx) (List.mem_range.mp hy) (List.mem_range.mp hz)

/-- Witness for C5: extraction of an all-empty 2×1×2 grid is the empty list. -/
theorem extractPrimitives_allEmpty_witness :
    LayoutGenerator.extractPrimitives ⟨2, 1, 2, fun _ _ _ => VoxelState.empty⟩ = [] :=
  extractPrimitives_allEmpty ⟨2, 1, 2, fun _ _ _ => VoxelState.empty⟩
    (fun _ _ _ _ _ _ => rfl)

/-- Claim C6 (confirmed against the spec-modelled `extractPrimitives`).
Extraction is deterministic: it is a pure function of the observable grid
state, so two calls on grids with the same extent and the same per-cell
classification — in particular two calls on the same unmodified grid —
return identical box sequences. -/
theorem extractPrimitives_deterministic (g1 g2 : VoxelGrid)
    (hl : g1.length = g2.length) (hh : g1.height = g2.height) (hw : g1.width = g2.width)
    (hc : ∀ x y z, g1.cell x y z = g2.cell x y z) :
    LayoutGenerator.extractPrimitives g1 = LayoutGenerator.extractPrimitives g2 := by
  obtain ⟨l1, h1, w1, c1⟩ := g1
  obtain ⟨l2, h2, w2, c2⟩ := g2
  have hl2 : l1 = l2 := hl
  have hh2 : h1 = h2 := hh
  have hw2 : w1 = w2 := hw
  subst hl2 hh2 hw2
  have hc2 : c1 = c2 := funext fun x => funext fun y => funext fun z => hc x y z
  subst hc2
  rfl

/-- Witness for C6: two syntactically different grids with the same extent and
pointwise-equal cells extract to the same box list. -/
theorem extractPrimitives_deterministic_witness :
    LayoutGenerator.extractPrimitives ⟨1, 1, 1, fun _ _ _ => VoxelState.floor⟩ =
      LayoutGenerator.extractPrimitives
        ⟨1, 1, 1, fun _ _ _ => if 5 < 3 then VoxelState.empty else VoxelState.floor⟩ :=
  extractPrimitives_deterministic
    ⟨1, 1, 1, fun _ _ _ => VoxelState.floor⟩
    ⟨1, 1, 1, fun _ _ _ => if 5 < 3 then VoxelState.empty else VoxelState.floor⟩
    rfl rfl rfl (fun _ _ _ => rfl)

/-- The header constant `length = 5` of `LayoutGenerator`
(`static constexpr int length = 5, height = 4, width = 4;`). -/
def LayoutGenerator.unitLength : Int := 5

/-- The header constant `height = 4` of `LayoutGenerator`. -/
def LayoutGenerator.unitHeight : Int := 4

/-- The header constant `width = 4` of `LayoutGenerator`. -/
def LayoutGenerator.unitWidth : Int := 4

/-- Modelled from the spec: the definition of `LayoutGenerator::levelExit` is
not among the provided sources (the header only declares it). Per spec §4.3
and §7 it returns a single bounding box sized to accommodate `numAgents`
agents — its footprint non-decreasing in the agent count — placed at a
designated exit location on the generated floor, and fails with an
invalid-argument condition for `numAgents ≤ 0` instead of producing a
degenerate box; the generator is stateless (spec §4.3), so failing performs
no mutation. The model places a one-cell-high exit pad at the far x edge of
the unit footprint, one cell per agent along the z axis. -/
def LayoutGenerator.levelExit (numAgents : Int) : Except String BoundingBox :=
  if numAgents ≤ 0 then
    Except.error "invalid argument: numAgents must be at least 1"
  else
    Except.ok
      ⟨⟨LayoutGenerator.unitLength - 1, 0, 0⟩,
       ⟨LayoutGenerator.unitLength - 1, 0, numAgents - 1⟩⟩

/-- Claim C7 (confirmed against the spec-modelled `levelExit`). For
`1 ≤ n ≤ m`, both calls succeed and the footprint (cell count) of the box for
`m` agents is at least the footprint of the box for `n` agents. -/
theorem levelExit_monotone (n m : Int) (h1 : 1 ≤ n) (h2 : n ≤ m) :
    ∃ bn bm, LayoutGenerator.levelExit n = Except.ok bn ∧
      LayoutGenerator.levelExit m = Except.ok bm ∧
      bn.cellCount ≤ bm.cellCount := by
  unfold LayoutGenerator.levelExit
  rw [if_neg (by omega), if_neg (by omega)]
  refine ⟨_, _, rfl, rfl, ?_⟩
  unfold BoundingBox.cellCount
  dsimp only
  ring_nf
  omega

/-- Witness for C7: the spec's concrete scenario `levelExit(1)` versus
`levelExit(4)`: both succeed and the second box's cell count is ≥ the
first's. -/
theorem levelExit_monotone_witness :
    ∃ bn bm, LayoutGenerator.levelExit 1 = Except.ok bn ∧
      LayoutGenerator.levelExit 4 = Except.ok bm ∧
      bn.cellCount ≤ bm.cellCount :=
  levelExit_monotone 1 4 (by decide) (by decide)

/-- Claim C8 (confirmed against the spec-modelled `levelExit`). Every
non-positive agent count is rejected with the invalid-argument error — no box,
degenerate or otherwise, is returned; the modelled generator is a pure
function of `numAgents` alone, so the failure mutates nothing. -/
theorem levelExit_rejects_nonpositive (n : Int) (h : n ≤ 0) :
    LayoutGenerator.levelExit n =
      Except.error "invalid argument: numAgents must be at least 1" := by
  unfold LayoutGenerator.levelExit
  rw [if_pos h]

/-- Witness for C8: `levelExit 0` fails with the invalid-argument error. -/
theorem levelExit_rejects_nonpositive_witness :
    LayoutGenerator.levelExit 0 =
      Except.error "invalid argument: numAgents must be at least 1" :=
  levelExit_rejects_nonpositive 0 (by decide)

/-- Modelled from the spec: the definition of `LayoutGenerator::generateFloor`
is not among the provided sources (the header only declares it). Spec §4.3:
it marks every cell of the lowest height layer (`y = 0`) across the grid's
full horizontal extent as floor-classified; all other cells keep their
classification. -/
def LayoutGenerator.generateFloor (g : VoxelGrid) : VoxelGrid :=
  { g with cell := fun x y z =>
      if y = 0 ∧ x < g.length ∧ z < g.width then VoxelState.floor
      else g.cell x y z }

/-- Modelled from the spec: the definition of
`LayoutGenerator::generateFloorWalls` is not among the provided sources (the
header only declares it). Spec §4.3: it marks the perimeter cells of the
horizontal footprint, across the full height extent, as wall-classified,
forming a closed boundary; walls must not overwrite floor cells nor any cell
classified before the call, so only empty-classified cells become wall. -/
def LayoutGenerator.generateFloorWalls (g : VoxelGrid) : VoxelGrid :=
  { g with cell := fun x y z =>
      if (x = 0 ∨ x + 1 = g.length ∨ z = 0 ∨ z + 1 = g.width) ∧
          x < g.length ∧ y < g.height ∧ z < g.width ∧
          g.cell x y z = VoxelState.empty then VoxelState.wall
      else g.cell x y z }

/-- Claim C9 (confirmed against the spec-modelled floor/wall generation).
After `generateFloor`, a subsequent `generateFloorWalls` leaves every cell
either unchanged or previously empty (no cell classified before the call is
overwritten), and in particular every floor-classified cell stays
floor-classified. -/
theorem generateFloorWalls_preserves (g : VoxelGrid) (x y z : Nat) :
    ((LayoutGenerator.generateFloorWalls (LayoutGenerator.generateFloor g)).cell x y z =
        (LayoutGenerator.generateFloor g).cell x y z ∨
      (LayoutGenerator.generateFloor g).cell x y z = VoxelState.empty) ∧
    ((LayoutGenerator.generateFloor g).cell x y z = VoxelState.floor →
      (LayoutGenerator.generateFloorWalls (LayoutGenerator.generateFloor g)).cell x y z =
        VoxelState.floor) := by
  constructor
  · unfold LayoutGenerator.generateFloorWalls
    dsimp only
    split
    next h => exact Or.inr h.2.2.2.2
    next => exact Or.inl rfl
  · intro hf
    unfold LayoutGenerator.generateFloorWalls
    dsimp only
    split
    next h =>
      rw [hf] at h
      exact absurd h.2.2.2.2 (by decide)
    next => exact hf

/-- Witness for C9: on an all-empty 3×2×3 grid, `generateFloor` makes the
interior cell `(1,0,1)` floor, and `generateFloorWalls` keeps it floor. -/
theorem generateFloorWalls_preserves_witness :
    (LayoutGenerator.generateFloorWalls
      (LayoutGenerator.generateFloor ⟨3, 2, 3, fun _ _ _ => VoxelState.empty⟩)).cell 1 0 1 =
      VoxelState.floor :=
  (generateFloorWalls_preserves ⟨3, 2, 3, fun _ _ _ => VoxelState.empty⟩ 1 0 1).2 (by decide)
